import Mathlib

/-!
Verification of the Northstar tag-angle pipeline
(`src/northstar/pipeline/TagAngleCalculator.py`,
`CameraMatrixTagAngleCalculator.calc_tag_angles`).

Shallow embedding: pixel coordinates, matrix entries and fit errors are
rationals; the transcendental outputs (`math.atan`, `Translation3d.norm`)
live in `ℝ`.  Exceptions raised by the Python code are modelled with
`Except Err`.  Collaborators that are part of the repository but absent
from `src/` (`pipeline/PoseEstimator.py`, `vision_types.py`,
`config/config.py`) and the external library calls (`cv2.undistortPoints`,
`np.linalg.inv`, wpimath's `Translation3d.norm`) are modelled from the
spec, as marked on each definition.
-/

/-- Failure modes of a single tag computation.  `invalidObservation` and
`poseSolveFailure` come from the spec's error taxonomy (§7);
`invalidCalibration` models the `numpy.linalg.LinAlgError` raised by
`np.linalg.inv` on a singular camera matrix; `indexError` models the
`IndexError` raised when the loop writes past the fixed 4-row
`np.zeros((4, 2))` array. -/
inductive Err where
  | invalidObservation
  | invalidCalibration
  | indexError
  | poseSolveFailure
deriving DecidableEq

/-- A 3x3 matrix of rationals, row major: the camera intrinsic matrix. -/
structure Mat3 where
  m00 : ℚ
  m01 : ℚ
  m02 : ℚ
  m10 : ℚ
  m11 : ℚ
  m12 : ℚ
  m20 : ℚ
  m21 : ℚ
  m22 : ℚ
deriving DecidableEq

/-- Determinant of a 3x3 matrix (cofactor expansion along the first row). -/
def Mat3.det (A : Mat3) : ℚ :=
  A.m00 * (A.m11 * A.m22 - A.m12 * A.m21)
    - A.m01 * (A.m10 * A.m22 - A.m12 * A.m20)
    + A.m02 * (A.m10 * A.m21 - A.m11 * A.m20)

/-- Inverse of a 3x3 matrix as computed by `np.linalg.inv`: adjugate over
determinant.  (The caller is responsible for the singular case, where
`np.linalg.inv` raises; division by a zero determinant is the total
rational division.) -/
def Mat3.inv (A : Mat3) : Mat3 :=
  let d := A.det
  { m00 := (A.m11 * A.m22 - A.m12 * A.m21) / d
    m01 := (A.m02 * A.m21 - A.m01 * A.m22) / d
    m02 := (A.m01 * A.m12 - A.m02 * A.m11) / d
    m10 := (A.m12 * A.m20 - A.m10 * A.m22) / d
    m11 := (A.m00 * A.m22 - A.m02 * A.m20) / d
    m12 := (A.m02 * A.m10 - A.m00 * A.m12) / d
    m20 := (A.m10 * A.m21 - A.m11 * A.m20) / d
    m21 := (A.m01 * A.m20 - A.m00 * A.m21) / d
    m22 := (A.m00 * A.m11 - A.m01 * A.m10) / d }

/-- Matrix-vector product `A.dot(v)` for a 3-vector. -/
def Mat3.mulVec3 (A : Mat3) (v : ℚ × ℚ × ℚ) : ℚ × ℚ × ℚ :=
  (A.m00 * v.1 + A.m01 * v.2.1 + A.m02 * v.2.2,
   A.m10 * v.1 + A.m11 * v.2.1 + A.m12 * v.2.2,
   A.m20 * v.1 + A.m21 * v.2.1 + A.m22 * v.2.2)

/-- A matrix in the standard pinhole intrinsic form
`[[fx, 0, cx], [0, fy, cy], [0, 0, 1]]` (focal lengths and principal
point, zero skew), the shape the spec's glossary assigns to "intrinsic
matrix" and the only shape the distortion model reads. -/
def Mat3.isIntrinsic (A : Mat3) : Prop :=
  A.m01 = 0 ∧ A.m10 = 0 ∧ A.m20 = 0 ∧ A.m21 = 0 ∧ A.m22 = 1

instance (A : Mat3) : Decidable A.isIntrinsic := by
  unfold Mat3.isIntrinsic
  infer_instance

/-- Modelled from the spec: the five-element distortion coefficient vector
`(k1, k2, p1, p2, k3)` of the standard radial-tangential lens model used
by `cv2.undistortPoints` (`config/config.py` is not under `src/`). -/
structure DistCoeffs where
  k1 : ℚ
  k2 : ℚ
  p1 : ℚ
  p2 : ℚ
  k3 : ℚ
deriving DecidableEq

/-- The all-zero distortion coefficient vector. -/
def DistCoeffs.zero : DistCoeffs := ⟨0, 0, 0, 0, 0⟩

/-- Modelled from the spec: the camera calibration snapshot
(`config_store.local_config`; `config/config.py` is not under `src/`):
a 3x3 intrinsic matrix and a distortion-coefficient vector. -/
structure CameraCalibration where
  camera_matrix : Mat3
  distortion_coefficients : DistCoeffs
deriving DecidableEq

/-- Modelled from the spec: `FiducialImageObservation` (`vision_types.py`
is not under `src/`): a tag identifier and the detected corner pixel
coordinates. -/
structure FiducialImageObservation where
  tag_id : ℤ
  corners : List (ℚ × ℚ)
deriving DecidableEq

/-- Modelled from the spec: a 3D translation, the component of a pose the
calculator reads (`pose.translation()`). -/
structure Translation3d where
  x : ℚ
  y : ℚ
  z : ℚ
deriving DecidableEq

/-- Modelled from the spec: wpimath's `Translation3d.norm()`, the
Euclidean norm of the translation. -/
noncomputable def Translation3d.norm (t : Translation3d) : ℝ :=
  Real.sqrt ((t.x : ℝ) ^ 2 + (t.y : ℝ) ^ 2 + (t.z : ℝ) ^ 2)

/-- Modelled from the spec: a rigid-transform pose hypothesis.  Only the
translation is read by the calculator (the rotation never is), so only
the translation is carried. -/
structure Pose3d where
  translation : Translation3d
deriving DecidableEq

/-- Modelled from the spec: `FiducialPoseObservation` (`vision_types.py`
is not under `src/`): two candidate poses with a scalar fit error each. -/
structure FiducialPoseObservation where
  error_0 : ℚ
  pose_0 : Pose3d
  error_1 : ℚ
  pose_1 : Pose3d
deriving DecidableEq

/-- The final output: tag identifier, the 4x2 bearing array (one
`(azimuth, elevation)` pair per row) and the scalar distance. -/
structure TagAngleObservation where
  tag_id : ℤ
  corners : Fin 4 → ℝ × ℝ
  distance : ℝ

/-- Modelled from the spec: one step of the fixed-point iteration inside
`cv2.undistortPoints` for the radial-tangential model.  `(x0, y0)` is the
normalized input point; the step refines the current estimate `(x, y)`. -/
def undistortIterStep (D : DistCoeffs) (x0 y0 : ℚ) (xy : ℚ × ℚ) : ℚ × ℚ :=
  let x := xy.1
  let y := xy.2
  let r2 := x * x + y * y
  let icdist := 1 / (1 + ((D.k3 * r2 + D.k2) * r2 + D.k1) * r2)
  let deltaX := 2 * D.p1 * x * y + D.p2 * (r2 + 2 * x * x)
  let deltaY := D.p1 * (r2 + 2 * y * y) + 2 * D.p2 * x * y
  ((x0 - deltaX) * icdist, (y0 - deltaY) * icdist)

/-- Iterate the undistortion step `n` times starting from the normalized
point itself. -/
def undistortIterate (D : DistCoeffs) (x0 y0 : ℚ) : Nat → ℚ × ℚ
  | 0 => (x0, y0)
  | n + 1 => undistortIterStep D x0 y0 (undistortIterate D x0 y0 n)

/-- Modelled from the spec: `cv2.undistortPoints(p, K, D, None, K)` on a
single point — normalize with the focal lengths and principal point of
`K`, run the inverse-distortion fixed-point iteration (five iterations,
OpenCV's default), then re-express in pixel units by projecting with the
same matrix `K` homogeneously. -/
def undistortPoint (K : Mat3) (D : DistCoeffs) (p : ℚ × ℚ) : ℚ × ℚ :=
  let x0 := (p.1 - K.m02) / K.m00
  let y0 := (p.2 - K.m12) / K.m11
  let xy := undistortIterate D x0 y0 5
  let xx := K.m00 * xy.1 + K.m01 * xy.2 + K.m02
  let yy := K.m10 * xy.1 + K.m11 * xy.2 + K.m12
  let ww := K.m20 * xy.1 + K.m21 * xy.2 + K.m22
  (xx / ww, yy / ww)

/-- The body of the `for index, corner in enumerate(corners_undistorted)`
loop: each iteration computes `np.linalg.inv(K)` (raising on a singular
matrix, modelled by `invalidCalibration`), applies it to the homogeneous
corner, and stores `(atan x, atan y)` at row `index` of the 4-row array
(an index past row 3 raises `IndexError`). -/
noncomputable def storeBearings (K : Mat3) :
    List (ℚ × ℚ) → Nat → (Fin 4 → ℝ × ℝ) → Except Err (Fin 4 → ℝ × ℝ)
  | [], _, arr => .ok arr
  | corner :: rest, index, arr =>
    if K.det = 0 then
      .error .invalidCalibration
    else
      let vec := K.inv.mulVec3 (corner.1, corner.2, 1)
      if h : index < 4 then
        storeBearings K rest (index + 1)
          (Function.update arr ⟨index, h⟩
            (Real.arctan (vec.1 : ℝ), Real.arctan (vec.2.1 : ℝ)))
      else
        .error .indexError

/-- The whole angle loop of `calc_tag_angles`: start from
`np.zeros((4, 2))` and fill the rows in corner order. -/
noncomputable def calcBearings (K : Mat3) (pts : List (ℚ × ℚ)) :
    Except Err (Fin 4 → ℝ × ℝ) :=
  storeBearings K pts 0 (fun _ => ((0 : ℝ), (0 : ℝ)))

/-- The per-point bearing formula: apply the inverse intrinsic matrix to
the homogeneous point `(u, v, 1)` and take `(atan x, atan y)` of the
first two components of the resulting ray. -/
noncomputable def rayBearing (K : Mat3) (p : ℚ × ℚ) : ℝ × ℝ :=
  let vec := K.inv.mulVec3 (p.1, p.2, 1)
  (Real.arctan (vec.1 : ℝ), Real.arctan (vec.2.1 : ℝ))

/-- The bearing a given corner of the input observation contributes:
undistortion followed by the ray-bearing formula. -/
noncomputable def cornerBearing (cfg : CameraCalibration) (p : ℚ × ℚ) : ℝ × ℝ :=
  rayBearing cfg.camera_matrix
    (undistortPoint cfg.camera_matrix cfg.distortion_coefficients p)

/-- Modelled from the spec: the Pose Resolver capability
`SquareTargetPoseEstimator.solve_fiducial_pose`
(`pipeline/PoseEstimator.py` is not under `src/`): an injectable,
deterministic solver that either returns two pose hypotheses with fit
errors or fails. -/
def PoseSolver : Type :=
  FiducialImageObservation → CameraCalibration → Except Err FiducialPoseObservation

/-- `CameraMatrixTagAngleCalculator.calc_tag_angles`: undistort the
corners, compute the per-corner bearings, solve for the two pose
hypotheses, select the one with strictly smaller `error_0` (else the
second), and assemble the observation with the selected translation
norm as distance. -/
noncomputable def calc_tag_angles (solver : PoseSolver)
    (image_observation : FiducialImageObservation)
    (cfg : CameraCalibration) : Except Err TagAngleObservation :=
  let corners_undistorted := image_observation.corners.map
    (undistortPoint cfg.camera_matrix cfg.distortion_coefficients)
  match calcBearings cfg.camera_matrix corners_undistorted with
  | .error e => .error e
  | .ok corners =>
    match solver image_observation cfg with
    | .error e => .error e
    | .ok pose_observation =>
      let distance : ℝ :=
        if pose_observation.error_0 < pose_observation.error_1 then
          pose_observation.pose_0.translation.norm
        else
          pose_observation.pose_1.translation.norm
      .ok ⟨image_observation.tag_id, corners, distance⟩

lemma calcBearings_four (K : Mat3) (hdet : K.det ≠ 0) (p0 p1 p2 p3 : ℚ × ℚ) :
    calcBearings K [p0, p1, p2, p3] =
      .ok ![rayBearing K p0, rayBearing K p1, rayBearing K p2, rayBearing K p3] := by
  simp [calcBearings, storeBearings, hdet, rayBearing]
  funext i
  fin_cases i <;> simp [Function.update]

lemma length_eq_four {α : Type} {l : List α} (h : l.length = 4) :
    ∃ a b c d, l = [a, b, c, d] := by
  rcases l with _ | ⟨a, _ | ⟨b, _ | ⟨c, _ | ⟨d, _ | ⟨e, t⟩⟩⟩⟩⟩ <;>
    simp only [List.length] at h <;> first | omega | exact ⟨a, b, c, d, rfl⟩

lemma length_lt_four {α : Type} {l : List α} (h : l.length < 4) :
    l = [] ∨ (∃ a, l = [a]) ∨ (∃ a b, l = [a, b]) ∨ (∃ a b c, l = [a, b, c]) := by
  rcases l with _ | ⟨a, _ | ⟨b, _ | ⟨c, _ | ⟨d, t⟩⟩⟩⟩
  · exact Or.inl rfl
  · exact Or.inr (Or.inl ⟨a, rfl⟩)
  · exact Or.inr (Or.inr (Or.inl ⟨a, b, rfl⟩))
  · exact Or.inr (Or.inr (Or.inr ⟨a, b, c, rfl⟩))
  · simp only [List.length] at h; omega

lemma calc_tag_angles_eq_ok (s : PoseSolver) (obs : FiducialImageObservation)
    (cfg : CameraCalibration) (pose : FiducialPoseObservation) (arr : Fin 4 → ℝ × ℝ)
    (hb : calcBearings cfg.camera_matrix
      (obs.corners.map (undistortPoint cfg.camera_matrix cfg.distortion_coefficients)) = .ok arr)
    (hs : s obs cfg = .ok pose) :
    calc_tag_angles s obs cfg =
      .ok ⟨obs.tag_id, arr,
        if pose.error_0 < pose.error_1 then pose.pose_0.translation.norm
        else pose.pose_1.translation.norm⟩ := by
  simp only [calc_tag_angles, hb, hs]

lemma calc_tag_angles_bearing_error (s : PoseSolver) (obs : FiducialImageObservation)
    (cfg : CameraCalibration) (e : Err)
    (hb : calcBearings cfg.camera_matrix
      (obs.corners.map (undistortPoint cfg.camera_matrix cfg.distortion_coefficients)) = .error e) :
    calc_tag_angles s obs cfg = .error e := by
  simp only [calc_tag_angles, hb]

lemma calc_tag_angles_solver_error (s : PoseSolver) (obs : FiducialImageObservation)
    (cfg : CameraCalibration) (e : Err) (arr : Fin 4 → ℝ × ℝ)
    (hb : calcBearings cfg.camera_matrix
      (obs.corners.map (undistortPoint cfg.camera_matrix cfg.distortion_coefficients)) = .ok arr)
    (hs : s obs cfg = .error e) :
    calc_tag_angles s obs cfg = .error e := by
  simp only [calc_tag_angles, hb, hs]

lemma storeBearings_ne_invalidObservation (K : Mat3) :
    ∀ (pts : List (ℚ × ℚ)) (idx : Nat) (arr : Fin 4 → ℝ × ℝ),
      storeBearings K pts idx arr ≠ .error .invalidObservation := by
  intro pts
  induction pts with
  | nil => intro idx arr; simp [storeBearings]
  | cons p rest ih =>
    intro idx arr
    simp only [storeBearings]
    split
    · simp
    · split
      · exact ih _ _
      · simp

lemma undistortIterStep_zero (x0 y0 : ℚ) (xy : ℚ × ℚ) :
    undistortIterStep DistCoeffs.zero x0 y0 xy = (x0, y0) := by
  simp [undistortIterStep, DistCoeffs.zero]

lemma undistortIterate_zero (x0 y0 : ℚ) : ∀ n, undistortIterate DistCoeffs.zero x0 y0 n = (x0, y0)
  | 0 => rfl
  | n + 1 => by rw [undistortIterate, undistortIterate_zero x0 y0 n, undistortIterStep_zero]

lemma intrinsic_det (K : Mat3) (hK : K.isIntrinsic) : K.det = K.m00 * K.m11 := by
  obtain ⟨h01, h10, h20, h21, h22⟩ := hK
  unfold Mat3.det
  rw [h01, h10, h20, h21, h22]
  ring

lemma undistortPoint_zero_dist (K : Mat3) (hK : K.isIntrinsic) (hdet : K.det ≠ 0) (p : ℚ × ℚ) :
    undistortPoint K DistCoeffs.zero p = p := by
  have hd := intrinsic_det K hK
  obtain ⟨h01, h10, h20, h21, h22⟩ := hK
  have h00 : K.m00 ≠ 0 := fun hc => hdet (by rw [hd, hc, zero_mul])
  have h11 : K.m11 ≠ 0 := fun hc => hdet (by rw [hd, hc, mul_zero])
  simp only [undistortPoint, undistortIterate_zero]
  simp only [h01, h10, h20, h21, h22]
  have : K.m00 * ((p.1 - K.m02) / K.m00) + 0 * ((p.2 - K.m12) / K.m11) + K.m02 = p.1 := by
    field_simp
  have h2 : 0 * ((p.1 - K.m02) / K.m00) + K.m11 * ((p.2 - K.m12) / K.m11) + K.m12 = p.2 := by
    field_simp
  have h3 : (0 : ℚ) * ((p.1 - K.m02) / K.m00) + 0 * ((p.2 - K.m12) / K.m11) + 1 = 1 := by
    ring
  rw [this, h2, h3, div_one, div_one]

lemma storeBearings_ok (K : Mat3) (hdet : K.det ≠ 0) :
    ∀ (pts : List (ℚ × ℚ)) (idx : Nat) (arr : Fin 4 → ℝ × ℝ),
      idx + pts.length ≤ 4 → ∃ out, storeBearings K pts idx arr = .ok out := by
  intro pts
  induction pts with
  | nil => intro idx arr _; exact ⟨arr, rfl⟩
  | cons p rest ih =>
    intro idx arr hle
    have hidx : idx < 4 := by simp only [List.length_cons] at hle; omega
    have hrec := ih (idx + 1)
      (Function.update arr ⟨idx, hidx⟩
        (Real.arctan ((K.inv.mulVec3 (p.1, p.2, 1)).1 : ℝ),
         Real.arctan ((K.inv.mulVec3 (p.1, p.2, 1)).2.1 : ℝ)))
      (by simp only [List.length_cons] at hle; omega)
    obtain ⟨out, hout⟩ := hrec
    refine ⟨out, ?_⟩
    simp only [storeBearings, if_neg hdet, dif_pos hidx]
    exact hout

lemma storeBearings_preserves_beyond (K : Mat3) :
    ∀ (pts : List (ℚ × ℚ)) (idx : Nat) (arr out : Fin 4 → ℝ × ℝ),
      storeBearings K pts idx arr = .ok out →
      ∀ i : Fin 4, (i : ℕ) < idx ∨ idx + pts.length ≤ (i : ℕ) → out i = arr i := by
  intro pts
  induction pts with
  | nil =>
    intro idx arr out hout i _
    simp only [storeBearings] at hout
    injection hout with h
    rw [h]
  | cons p rest ih =>
    intro idx arr out hout i hi
    simp only [storeBearings] at hout
    by_cases hdet : K.det = 0
    · rw [if_pos hdet] at hout; exact absurd hout (by simp)
    · rw [if_neg hdet] at hout
      by_cases hidx : idx < 4
      · rw [dif_pos hidx] at hout
        have hcond : (i : ℕ) < idx + 1 ∨ (idx + 1) + rest.length ≤ (i : ℕ) := by
          simp only [List.length_cons] at hi; omega
        have := ih (idx + 1) _ out hout i hcond
        rw [this, Function.update_noteq]
        intro hc
        have : (i : ℕ) = idx := by rw [hc]
        simp only [List.length_cons] at hi
        omega
      · rw [dif_neg hidx] at hout; exact absurd hout (by simp)

lemma norm_of_sq (t : Translation3d) (r : ℚ) (hr : 0 ≤ r)
    (h : t.x ^ 2 + t.y ^ 2 + t.z ^ 2 = r ^ 2) : t.norm = (r : ℝ) := by
  unfold Translation3d.norm
  have hcast : (t.x : ℝ) ^ 2 + (t.y : ℝ) ^ 2 + (t.z : ℝ) ^ 2 = (r : ℝ) ^ 2 := by
    exact_mod_cast congrArg (fun q : ℚ => (q : ℝ)) h
  rw [hcast, Real.sqrt_sq (by exact_mod_cast hr)]

def idMat : Mat3 := ⟨1, 0, 0, 0, 1, 0, 0, 0, 1⟩

def idCfg : CameraCalibration := ⟨idMat, DistCoeffs.zero⟩

def singMat : Mat3 := ⟨1, 0, 0, 0, 1, 0, 0, 0, 0⟩

def singCfg : CameraCalibration := ⟨singMat, DistCoeffs.zero⟩

def sqObs : FiducialImageObservation :=
  ⟨7, [(-1/10, -1/10), (1/10, -1/10), (1/10, 1/10), (-1/10, 1/10)]⟩

def triObs : FiducialImageObservation := ⟨3, [(0, 0), (1/10, 0), (1/10, 1/10)]⟩

def okSolver (p : FiducialPoseObservation) : PoseSolver := fun _ _ => .ok p

def failSolver : PoseSolver := fun _ _ => .error .poseSolveFailure

def tiePose : FiducialPoseObservation :=
  ⟨1/100, ⟨⟨2, 0, 0⟩⟩, 1/100, ⟨⟨0, 0, 5/2⟩⟩⟩

def ltPose : FiducialPoseObservation :=
  ⟨1/100, ⟨⟨2, 0, 0⟩⟩, 2/100, ⟨⟨0, 0, 5/2⟩⟩⟩

lemma calcBearings_of_four_corners (cfg : CameraCalibration)
    (obs : FiducialImageObservation) (hdet : cfg.camera_matrix.det ≠ 0)
    (a b c d : ℚ × ℚ) (hl : obs.corners = [a, b, c, d]) :
    calcBearings cfg.camera_matrix
      (obs.corners.map (undistortPoint cfg.camera_matrix cfg.distortion_coefficients)) =
      .ok ![cornerBearing cfg a, cornerBearing cfg b, cornerBearing cfg c, cornerBearing cfg d] := by
  rw [hl]
  simp only [List.map_cons, List.map_nil, cornerBearing]
  exact calcBearings_four _ hdet _ _ _ _

/-- C2: for distinct fit errors the selected distance is the translation
norm of the strictly-lower-error hypothesis: hypothesis 0 when
`error_0 < error_1`, hypothesis 1 when `error_1 < error_0`. -/
theorem selected_distance_is_lower_error_norm (s : PoseSolver)
    (obs : FiducialImageObservation) (cfg : CameraCalibration)
    (pose : FiducialPoseObservation)
    (hdet : cfg.camera_matrix.det ≠ 0) (hlen : obs.corners.length = 4)
    (hs : s obs cfg = .ok pose) :
    ∃ out, calc_tag_angles s obs cfg = .ok out ∧
      (pose.error_0 < pose.error_1 → out.distance = pose.pose_0.translation.norm) ∧
      (pose.error_1 < pose.error_0 → out.distance = pose.pose_1.translation.norm) := by
  obtain ⟨a, b, c, d, hl⟩ := length_eq_four hlen
  have hb := calcBearings_of_four_corners cfg obs hdet a b c d hl
  refine ⟨_, calc_tag_angles_eq_ok s obs cfg pose _ hb hs, ?_, ?_⟩
  · intro h
    simp only [if_pos h]
  · intro h
    simp only [if_neg (lt_asymm h)]

/-- C2 witness: hypotheses with translation norms 2.0 (error 0.01) and
2.5 (error 0.02) yield selected distance 2.0. -/
theorem selected_distance_is_lower_error_norm_witness :
    ∃ out, calc_tag_angles (okSolver ltPose) sqObs idCfg = .ok out ∧
      out.distance = (2 : ℝ) := by
  obtain ⟨out, hout, hlt, _⟩ :=
    selected_distance_is_lower_error_norm (okSolver ltPose) sqObs idCfg ltPose
      (by norm_num [idCfg, idMat, Mat3.det]) rfl rfl
  refine ⟨out, hout, ?_⟩
  rw [hlt (by norm_num [ltPose])]
  exact norm_of_sq _ 2 (by norm_num) (by norm_num [ltPose])

/-- C1 counterexample: with exactly equal fit errors (both 1/100) and
hypothesis translations of norm 2 (hypothesis 0) and 5/2 (hypothesis 1),
the returned distance is 5/2, the norm of hypothesis 1's translation —
not the norm of hypothesis 0's translation. -/
theorem tie_break_counterexample :
    ∃ out, calc_tag_angles (okSolver tiePose) sqObs idCfg = .ok out ∧
      tiePose.error_0 = tiePose.error_1 ∧
      out.distance = tiePose.pose_1.translation.norm ∧
      out.distance ≠ tiePose.pose_0.translation.norm := by
  have hdet : idCfg.camera_matrix.det ≠ 0 := by norm_num [idCfg, idMat, Mat3.det]
  have hb := calcBearings_of_four_corners idCfg sqObs hdet _ _ _ _ rfl
  refine ⟨_, calc_tag_angles_eq_ok (okSolver tiePose) sqObs idCfg tiePose _ hb rfl,
    rfl, ?_, ?_⟩
  · have : ¬ tiePose.error_0 < tiePose.error_1 := by norm_num [tiePose]
    simp only [if_neg this]
  · have : ¬ tiePose.error_0 < tiePose.error_1 := by norm_num [tiePose]
    simp only [if_neg this]
    have h1 : tiePose.pose_1.translation.norm = ((5/2 : ℚ) : ℝ) :=
      norm_of_sq _ (5/2) (by norm_num) (by norm_num [tiePose])
    have h0 : tiePose.pose_0.translation.norm = ((2 : ℚ) : ℝ) :=
      norm_of_sq _ 2 (by norm_num) (by norm_num [tiePose])
    rw [h1, h0]
    norm_num

/-- C1 amended: on exactly equal fit errors `calc_tag_angles` selects
hypothesis 1, not hypothesis 0 — the returned distance is the Euclidean
norm of hypothesis 1's translation. -/
theorem tie_selects_second_hypothesis (s : PoseSolver)
    (obs : FiducialImageObservation) (cfg : CameraCalibration)
    (pose : FiducialPoseObservation)
    (hdet : cfg.camera_matrix.det ≠ 0) (hlen : obs.corners.length = 4)
    (hs : s obs cfg = .ok pose) (heq : pose.error_0 = pose.error_1) :
    ∃ out, calc_tag_angles s obs cfg = .ok out ∧
      out.distance = pose.pose_1.translation.norm := by
  obtain ⟨a, b, c, d, hl⟩ := length_eq_four hlen
  have hb := calcBearings_of_four_corners cfg obs hdet a b c d hl
  refine ⟨_, calc_tag_angles_eq_ok s obs cfg pose _ hb hs, ?_⟩
  rw [heq, if_neg (lt_irrefl pose.error_1)]

/-- C1 amended witness: the tie-break theorem applied at the concrete
tie input. -/
theorem tie_selects_second_hypothesis_witness :
    ∃ out, calc_tag_angles (okSolver tiePose) sqObs idCfg = .ok out ∧
      out.distance = tiePose.pose_1.translation.norm :=
  tie_selects_second_hypothesis (okSolver tiePose) sqObs idCfg tiePose
    (by norm_num [idCfg, idMat, Mat3.det]) rfl rfl rfl

/-- C4: a singular intrinsic matrix makes `calc_tag_angles` fail with
`InvalidCalibration` (the `np.linalg.inv` failure inside the bearing
loop) on every four-corner observation, so no `TagAngleObservation` is
produced. -/
theorem singular_calibration_raises (s : PoseSolver)
    (obs : FiducialImageObservation) (cfg : CameraCalibration)
    (hlen : obs.corners.length = 4) (hdet : cfg.camera_matrix.det = 0) :
    calc_tag_angles s obs cfg = .error .invalidCalibration := by
  obtain ⟨a, b, c, d, hl⟩ := length_eq_four hlen
  apply calc_tag_angles_bearing_error
  rw [hl]
  simp [calcBearings, storeBearings, hdet]

/-- C4 witness: the singular-calibration theorem applied to the concrete
square observation and a calibration whose matrix has a zero third row. -/
theorem singular_calibration_raises_witness :
    calc_tag_angles failSolver sqObs singCfg = .error .invalidCalibration :=
  singular_calibration_raises failSolver sqObs singCfg rfl
    (by norm_num [singCfg, singMat, Mat3.det])

/-- C9: when the pose solver fails, `calc_tag_angles` propagates that
failure unchanged and emits no `TagAngleObservation`. -/
theorem solver_failure_propagated (s : PoseSolver)
    (obs : FiducialImageObservation) (cfg : CameraCalibration) (e : Err)
    (hdet : cfg.camera_matrix.det ≠ 0) (hlen : obs.corners.length = 4)
    (hs : s obs cfg = .error e) :
    calc_tag_angles s obs cfg = .error e := by
  obtain ⟨a, b, c, d, hl⟩ := length_eq_four hlen
  exact calc_tag_angles_solver_error s obs cfg e _
    (calcBearings_of_four_corners cfg obs hdet a b c d hl) hs

/-- C9 witness: a solver that fails with `PoseSolveFailure` makes the
whole computation fail with exactly `PoseSolveFailure`. -/
theorem solver_failure_propagated_witness :
    calc_tag_angles failSolver sqObs idCfg = .error .poseSolveFailure :=
  solver_failure_propagated failSolver sqObs idCfg .poseSolveFailure
    (by norm_num [idCfg, idMat, Mat3.det]) rfl rfl

/-- C7: `calc_tag_angles` is a pure function of the solver, observation
and calibration: identical inputs give identical (bit-for-bit equal)
outputs, hence equal tag id, bearing array and distance. -/
theorem calc_tag_angles_deterministic (s : PoseSolver)
    (o1 o2 : FiducialImageObservation) (c1 c2 : CameraCalibration)
    (ho : o1 = o2) (hc : c1 = c2) :
    calc_tag_angles s o1 c1 = calc_tag_angles s o2 c2 := by
  rw [ho, hc]

/-- C7 witness: the determinism theorem applied at a concrete input. -/
theorem calc_tag_angles_deterministic_witness :
    calc_tag_angles (okSolver ltPose) sqObs idCfg =
      calc_tag_angles (okSolver ltPose) sqObs idCfg :=
  calc_tag_angles_deterministic (okSolver ltPose) sqObs sqObs idCfg idCfg rfl rfl

/-- C3: the bearing of each undistorted corner `(u, v)` is
`(atan x, atan y)` for `(x, y, z)` the inverse intrinsic matrix applied
to `(u, v, 1)`; moreover, with the identity intrinsic matrix and zero
distortion the corner `(-1/10, -1/10)` yields exactly
`(atan (-1/10), atan (-1/10))`. -/
theorem bearing_is_atan_of_inverse_ray (K : Mat3) (hdet : K.det ≠ 0)
    (p0 p1 p2 p3 : ℚ × ℚ) :
    calcBearings K [p0, p1, p2, p3] =
      .ok ![rayBearing K p0, rayBearing K p1, rayBearing K p2, rayBearing K p3] ∧
    (∃ out, calc_tag_angles (okSolver ltPose) sqObs idCfg = .ok out ∧
      out.corners 0 = (Real.arctan (-(1/10)), Real.arctan (-(1/10)))) := by
  refine ⟨calcBearings_four K hdet p0 p1 p2 p3, ?_⟩
  have hdetId : idCfg.camera_matrix.det ≠ 0 := by norm_num [idCfg, idMat, Mat3.det]
  have hb := calcBearings_of_four_corners idCfg sqObs hdetId _ _ _ _ rfl
  refine ⟨_, calc_tag_angles_eq_ok (okSolver ltPose) sqObs idCfg ltPose _ hb rfl, ?_⟩
  show cornerBearing idCfg (-1/10, -1/10) = _
  have hu : undistortPoint idCfg.camera_matrix idCfg.distortion_coefficients
      (-1/10, -1/10) = (-1/10, -1/10) :=
    undistortPoint_zero_dist _ (by norm_num [idCfg, idMat, Mat3.isIntrinsic]) hdetId _
  rw [cornerBearing, hu, rayBearing]
  norm_num [Mat3.inv, Mat3.mulVec3, Mat3.det, idCfg, idMat]

/-- C3 witness: the bearing-formula theorem applied at the identity
matrix and the four concrete square corners. -/
theorem bearing_is_atan_of_inverse_ray_witness :
    calcBearings idMat [(-1/10, -1/10), (1/10, -1/10), (1/10, 1/10), (-1/10, 1/10)] =
      .ok ![rayBearing idMat (-1/10, -1/10), rayBearing idMat (1/10, -1/10),
            rayBearing idMat (1/10, 1/10), rayBearing idMat (-1/10, 1/10)] :=
  (bearing_is_atan_of_inverse_ray idMat (by norm_num [idMat, Mat3.det])
    (-1/10, -1/10) (1/10, -1/10) (1/10, 1/10) (-1/10, 1/10)).1

/-- C8: the bearing array preserves corner order — for a four-corner
observation the output row `i` is the bearing computed from input
corner `i`. -/
theorem corner_order_preserved (s : PoseSolver) (tag : ℤ)
    (p0 p1 p2 p3 : ℚ × ℚ) (cfg : CameraCalibration)
    (pose : FiducialPoseObservation)
    (hdet : cfg.camera_matrix.det ≠ 0)
    (hs : s ⟨tag, [p0, p1, p2, p3]⟩ cfg = .ok pose) :
    ∃ out, calc_tag_angles s ⟨tag, [p0, p1, p2, p3]⟩ cfg = .ok out ∧
      out.corners = ![cornerBearing cfg p0, cornerBearing cfg p1,
                      cornerBearing cfg p2, cornerBearing cfg p3] := by
  have hb := calcBearings_of_four_corners cfg ⟨tag, [p0, p1, p2, p3]⟩ hdet
    p0 p1 p2 p3 rfl
  exact ⟨_, calc_tag_angles_eq_ok s _ cfg pose _ hb hs, rfl⟩

/-- C8 witness: corner-order preservation at the concrete square
observation. -/
theorem corner_order_preserved_witness :
    ∃ out, calc_tag_angles (okSolver ltPose) ⟨7, [(-1/10, -1/10), (1/10, -1/10),
        (1/10, 1/10), (-1/10, 1/10)]⟩ idCfg = .ok out ∧
      out.corners = ![cornerBearing idCfg (-1/10, -1/10),
                      cornerBearing idCfg (1/10, -1/10),
                      cornerBearing idCfg (1/10, 1/10),
                      cornerBearing idCfg (-1/10, 1/10)] :=
  corner_order_preserved (okSolver ltPose) 7 (-1/10, -1/10) (1/10, -1/10)
    (1/10, 1/10) (-1/10, 1/10) idCfg ltPose
    (by norm_num [idCfg, idMat, Mat3.det]) rfl

/-- C6: with an all-zero distortion coefficient vector the undistortion
step is the identity on every four-corner set, for every invertible
intrinsic matrix (standard pinhole form). -/
theorem zero_distortion_identity (K : Mat3) (D : DistCoeffs)
    (hK : K.isIntrinsic) (hdet : K.det ≠ 0) (hD : D = DistCoeffs.zero)
    (pts : List (ℚ × ℚ)) (_hlen : pts.length = 4) :
    pts.map (undistortPoint K D) = pts := by
  subst hD
  clear _hlen
  induction pts with
  | nil => rfl
  | cons p rest ih =>
    rw [List.map_cons, undistortPoint_zero_dist K hK hdet, ih]

/-- C6 witness: zero-distortion identity at the identity matrix and the
four concrete square corners. -/
theorem zero_distortion_identity_witness :
    sqObs.corners.map (undistortPoint idMat DistCoeffs.zero) = sqObs.corners :=
  zero_distortion_identity idMat DistCoeffs.zero
    (by norm_num [idMat, Mat3.isIntrinsic]) (by norm_num [idMat, Mat3.det])
    rfl sqObs.corners rfl

/-- C5 counterexample: a three-corner observation is not rejected — no
`InvalidObservation` is raised; the computation runs to completion and
returns a `TagAngleObservation`. -/
theorem missing_validation_counterexample :
    triObs.corners.length ≠ 4 ∧
    calc_tag_angles (okSolver ltPose) triObs idCfg ≠ .error .invalidObservation ∧
    (∃ out, calc_tag_angles (okSolver ltPose) triObs idCfg = .ok out) := by
  have hdet : idCfg.camera_matrix.det ≠ 0 := by norm_num [idCfg, idMat, Mat3.det]
  have hmap : (triObs.corners.map
      (undistortPoint idCfg.camera_matrix idCfg.distortion_coefficients)).length = 3 := by
    rw [List.length_map]
    rfl
  obtain ⟨arr, harr⟩ := storeBearings_ok idCfg.camera_matrix hdet
    (triObs.corners.map (undistortPoint idCfg.camera_matrix idCfg.distortion_coefficients))
    0 (fun _ => ((0 : ℝ), (0 : ℝ))) (by rw [hmap]; omega)
  have hcalc := calc_tag_angles_eq_ok (okSolver ltPose) triObs idCfg ltPose arr harr rfl
  exact ⟨by decide, by rw [hcalc]; simp, ⟨_, hcalc⟩⟩

/-- C5 amended: `calc_tag_angles` performs no observation validation at
all: as long as the solver itself never fails with `InvalidObservation`,
no input — whatever its corner count or tag id — makes the computation
fail with `InvalidObservation`. -/
theorem no_invalid_observation_raised (s : PoseSolver)
    (obs : FiducialImageObservation) (cfg : CameraCalibration)
    (hS : ∀ o c, s o c ≠ .error .invalidObservation) :
    calc_tag_angles s obs cfg ≠ .error .invalidObservation := by
  simp only [calc_tag_angles]
  rcases hb : calcBearings cfg.camera_matrix
      (obs.corners.map (undistortPoint cfg.camera_matrix cfg.distortion_coefficients))
    with e | arr
  · have he : e ≠ .invalidObservation := fun hc =>
      storeBearings_ne_invalidObservation cfg.camera_matrix _ _ _ (hc ▸ hb)
    intro hc
    injection hc with hc2
    exact he hc2
  · rcases hs : s obs cfg with e2 | pose
    · intro hc
      injection hc with hc2
      exact hS obs cfg (hc2 ▸ hs)
    · simp

/-- C5 amended witness: the no-validation theorem applied at the
concrete three-corner observation. -/
theorem no_invalid_observation_raised_witness :
    calc_tag_angles (okSolver ltPose) triObs idCfg ≠ .error .invalidObservation :=
  no_invalid_observation_raised (okSolver ltPose) triObs idCfg
    (fun o c => by simp [okSolver])

/-- C10: with fewer than four corners (and an invertible matrix and a
successful pose solve) `calc_tag_angles` does not raise: it returns an
observation whose 4-row bearing array keeps every row beyond the
supplied corners at `(0, 0)`, the `np.zeros((4, 2))` initial value. -/
theorem short_corner_list_zero_padded (s : PoseSolver)
    (obs : FiducialImageObservation) (cfg : CameraCalibration)
    (pose : FiducialPoseObservation)
    (hdet : cfg.camera_matrix.det ≠ 0) (hshort : obs.corners.length < 4)
    (hs : s obs cfg = .ok pose) :
    ∃ out, calc_tag_angles s obs cfg = .ok out ∧
      ∀ i : Fin 4, obs.corners.length ≤ (i : ℕ) → out.corners i = (0, 0) := by
  have hmaplen : (obs.corners.map
      (undistortPoint cfg.camera_matrix cfg.distortion_coefficients)).length =
      obs.corners.length := List.length_map _ _
  obtain ⟨arr, harr⟩ := storeBearings_ok cfg.camera_matrix hdet
    (obs.corners.map (undistortPoint cfg.camera_matrix cfg.distortion_coefficients))
    0 (fun _ => ((0 : ℝ), (0 : ℝ))) (by rw [hmaplen]; omega)
  refine ⟨_, calc_tag_angles_eq_ok s obs cfg pose arr harr hs, ?_⟩
  intro i hi
  have := storeBearings_preserves_beyond cfg.camera_matrix _ _ _ _ harr i
    (Or.inr (by rw [hmaplen]; omega))
  exact this

/-- C10 witness: the zero-padding theorem at the concrete three-corner
observation — row 3 of the bearing array stays `(0, 0)`. -/
theorem short_corner_list_zero_padded_witness :
    ∃ out, calc_tag_angles (okSolver ltPose) triObs idCfg = .ok out ∧
      ∀ i : Fin 4, triObs.corners.length ≤ (i : ℕ) → out.corners i = (0, 0) :=
  short_corner_list_zero_padded (okSolver ltPose) triObs idCfg ltPose
    (by norm_num [idCfg, idMat, Mat3.det]) (by decide) rfl
